import Mathlib

/-!
Verification of the tinytcp core of the `tiny` repository: a shallow
embedding, in Lean, of the packet-framing protocols (`tinytcp/framing.go`,
`tinytcp/writing.go`), the packet framing handler, the bounded sockets
registry (`tinytcp/sockets_list.go`, `tinytcp/server.go`), the socket
close-once logic, the server background job, and the bulk broadcaster.
Bytes are modelled as `Nat` (the Go code only ever stores byte values
`0..255` in them); Go's 64-bit integers are modelled as `Nat`/`Int` with
explicit reductions modulo `2 ^ 64` at the points where Go truncates.
-/

/-- Modelled from the spec: the constants `segmentBits` and `continueBit` used
by the VarInt/VarLong framing are declared in a file of this repository that
is not part of the sources at hand (only their uses in `framing.go` and
`writing.go` are).  The spec describes the encoding as "7-bit-continuation
variable-length" numbers, which fixes `segmentBits = 0x7F`. -/
def segBits : Nat := 127

/-- Modelled from the spec: the continuation bit of the 7-bit-continuation
variable-length encoding, `continueBit = 0x80`. -/
def contBit : Nat := 128

/-- Embedding of `WriteVarInt` from `tinytcp/writing.go`, restricted to the
non-negative values used for packet lengths.  Go loops
`for { if value & ^segmentBits == 0 { write byte(value); break };
write byte((value & segmentBits) | continueBits); value >>= 7 }`;
for a non-negative 64-bit `value`, `value & ^0x7F == 0` is `value < 128`,
`value & 0x7F` is `value % 128` and `value >> 7` is `value / 128`.
`WriteVarLong` is the same code at type `int64` and coincides with this
function on non-negative values. -/
def writeVarInt (n : Nat) : List Nat :=
  if n < 128 then [n]
  else (n % 128 + 128) :: writeVarInt (n / 128)
termination_by n
decreasing_by exact Nat.div_lt_self (by omega) (by omega)

/-- Embedding of the loop of `readVarIntPacketSize` from `tinytcp/framing.go`.
The parameters `value`, `position` and `i` are the three loop variables;
the list argument is `buffer[i:]`.  `none` models the `return 0, 0, false`
paths (buffer exhausted, or `position >= 32` after a continuation byte);
`some (i + 1, value)` models `return i + 1, int64(value), true`. -/
def readVarIntLoop : List Nat → Nat → Nat → Nat → Option (Nat × Nat)
  | [], _, _, _ => none
  | b :: rest, value, position, i =>
    let value2 := value ||| ((b &&& segBits) <<< position)
    if b &&& contBit = 0 then some (i + 1, value2)
    else if position + 7 ≥ 32 then none
    else readVarIntLoop rest value2 (position + 7) (i + 1)

/-- `readVarIntPacketSize` from `tinytcp/framing.go`: starts the loop with
`value = 0`, `position = 0`, `i = 0`. -/
def readVarIntPacketSize (buffer : List Nat) : Option (Nat × Nat) :=
  readVarIntLoop buffer 0 0 0

/-- Embedding of the loop of `readVarLongPacketSize` from
`tinytcp/framing.go`.  The accumulator is an `int64`; Go's
`int64(b) & int64(segmentBits) << position` discards the bits shifted past
bit 63, which on the unsigned bit-pattern reading is a reduction modulo
`2 ^ 64`.  The loop fails once `position >= 64` after a continuation byte. -/
def readVarLongLoop : List Nat → Nat → Nat → Nat → Option (Nat × Nat)
  | [], _, _, _ => none
  | b :: rest, value, position, i =>
    let value2 := value ||| (((b &&& segBits) <<< position) % (2 ^ 64))
    if b &&& contBit = 0 then some (i + 1, value2)
    else if position + 7 ≥ 64 then none
    else readVarLongLoop rest value2 (position + 7) (i + 1)

/-- `readVarLongPacketSize` from `tinytcp/framing.go`. -/
def readVarLongPacketSize (buffer : List Nat) : Option (Nat × Nat) :=
  readVarLongLoop buffer 0 0 0

/-- The value of a `w`-byte big-endian buffer, as computed by
`binary.BigEndian.Uint16/Uint32/Uint64`. -/
def beUint (bytes : List Nat) : Nat :=
  bytes.foldl (fun acc b => acc * 256 + b) 0

/-- The value of a `w`-byte little-endian buffer, as computed by
`binary.LittleEndian.Uint16/Uint32/Uint64`. -/
def leUint : List Nat → Nat
  | [] => 0
  | b :: rest => b + 256 * leUint rest

/-- Big-endian encoding of `n` on `w` bytes (the `binary.BigEndian.PutUintN`
byte layout): most significant byte first. -/
def beBytes : Nat → Nat → List Nat
  | 0, _ => []
  | w + 1, n => beBytes w (n / 256) ++ [n % 256]

/-- Little-endian encoding of `n` on `w` bytes: least significant byte
first. -/
def leBytes : Nat → Nat → List Nat
  | 0, _ => []
  | w + 1, n => n % 256 :: leBytes w (n / 256)

/-- Go's conversion of a 64-bit unsigned bit pattern to `int64`
(two's complement). -/
def toInt64 (v : Nat) : Int :=
  if v < 2 ^ 63 then (v : Int) else (v : Int) - 2 ^ 64

/-- The `PrefixLength` enumeration from `tinytcp/utils.go`. -/
inductive PrefixLength where
  | varInt | varLong
  | int16BE | int16LE
  | int32BE | int32LE
  | int64BE | int64LE
deriving DecidableEq, Repr

/-- The fixed prefix width assigned by the first `switch` of
`lengthPrefixedFramingProtocol.ExtractPacket`: 2/4/8 bytes for the fixed
kinds; the variable kinds are left at the zero value. -/
def fixedPrefixWidth : PrefixLength → Nat
  | .varInt | .varLong => 0
  | .int16BE | .int16LE => 2
  | .int32BE | .int32LE => 4
  | .int64BE | .int64LE => 8

/-- The prefix-decoding phase of
`lengthPrefixedFramingProtocol.ExtractPacket` from `tinytcp/framing.go`:
checks `len(buffer) >= prefixLength` and then reads the declared packet
size, returning the final `prefixLength` together with the `int64`
`packetSize`.  `none` covers both the short-buffer `return nil, buffer,
false` branch and the failing VarInt/VarLong reads. -/
def declaredSize (pl : PrefixLength) (buffer : List Nat) : Option (Nat × Int) :=
  if buffer.length ≥ fixedPrefixWidth pl then
    match pl with
    | .varInt => (readVarIntPacketSize buffer).map (fun p => (p.1, (p.2 : Int)))
    | .varLong => (readVarLongPacketSize buffer).map (fun p => (p.1, toInt64 p.2))
    | .int16BE => some (2, (beUint (buffer.take 2) : Int))
    | .int16LE => some (2, (leUint (buffer.take 2) : Int))
    | .int32BE => some (4, (beUint (buffer.take 4) : Int))
    | .int32LE => some (4, (leUint (buffer.take 4) : Int))
    | .int64BE => some (8, toInt64 (beUint (buffer.take 8)))
    | .int64LE => some (8, toInt64 (leUint (buffer.take 8)))
  else none

/-- Result of an `ExtractPacket` call.  `crash` models the Go runtime panic
`buffer[:packetSize]` raises when the decoded `int64` packet size is
negative (possible for the 64-bit and VarLong prefixes); `res` carries the
`(packet, rest, extracted)` triple, with `none` for a `nil` packet. -/
inductive ExtractResult where
  | crash : ExtractResult
  | res (packet : Option (List Nat)) (rest : List Nat) (extracted : Bool) : ExtractResult
deriving DecidableEq, Repr

/-- `lengthPrefixedFramingProtocol.ExtractPacket` from `tinytcp/framing.go`:
after the prefix decode, Go checks
`int64(len(buffer[prefixLength:])) >= packetSize` and then returns
`buffer[prefixLength:][:packetSize], buffer[prefixLength:][packetSize:],
true`; a negative `packetSize` passes the check and panics in the slice
expression. -/
def lengthPrefixedExtractPacket (pl : PrefixLength) (buffer : List Nat) : ExtractResult :=
  match declaredSize pl buffer with
  | none => .res none buffer false
  | some (plen, sz) =>
    if ((buffer.drop plen).length : Int) ≥ sz then
      if sz < 0 then .crash
      else .res (some ((buffer.drop plen).take sz.toNat))
                ((buffer.drop plen).drop sz.toNat) true
    else .res none buffer false

/-- The length prefix written ahead of a packet of `n` bytes, per framing
kind: `WriteVarInt`/`WriteVarLong` from `tinytcp/writing.go` for the
variable kinds, the `encoding/binary` fixed-width encodings otherwise. -/
def encodePrefix : PrefixLength → Nat → List Nat
  | .varInt, n => writeVarInt n
  | .varLong, n => writeVarInt n
  | .int16BE, n => beBytes 2 n
  | .int16LE, n => leBytes 2 n
  | .int32BE, n => beBytes 4 n
  | .int32LE, n => leBytes 4 n
  | .int64BE, n => beBytes 8 n
  | .int64LE, n => leBytes 8 n

/-- A payload length fits a framing kind when the written prefix decodes to
the same non-negative `int64`: up to 16/32 bits for the fixed unsigned
16/32-bit prefixes, up to 63 bits for the signed-interpreted 64-bit and
VarLong prefixes, and up to 32 bits for VarInt (the spec bounds VarInt to
32 bits). -/
def fitsPrefix : PrefixLength → Nat → Prop
  | .varInt, n => n < 2 ^ 32
  | .varLong, n => n < 2 ^ 63
  | .int16BE, n => n < 2 ^ 16
  | .int16LE, n => n < 2 ^ 16
  | .int32BE, n => n < 2 ^ 32
  | .int32LE, n => n < 2 ^ 32
  | .int64BE, n => n < 2 ^ 63
  | .int64LE, n => n < 2 ^ 63

instance (pl : PrefixLength) (n : Nat) : Decidable (fitsPrefix pl n) := by
  cases pl <;> (simp only [fitsPrefix]; infer_instance)

lemma and_127_eq_mod (n : Nat) : n &&& segBits = n % 128 := by
  have h := Nat.and_pow_two_sub_one_eq_mod n 7
  norm_num at h
  simpa [segBits] using h

lemma and_128_of_lt {n : Nat} (h : n < 128) : n &&& contBit = 0 := by
  have ht : n.testBit 7 = false := Nat.testBit_lt_two_pow (by norm_num at h ⊢; exact h)
  have h2 := Nat.and_two_pow n 7
  norm_num [ht] at h2
  simpa [contBit] using h2

lemma and_128_of_cont (n : Nat) : (n % 128 + 128) &&& contBit = 128 := by
  have hx : (n % 128).testBit 7 = false :=
    Nat.testBit_lt_two_pow (by have h : n % 128 < 128 := Nat.mod_lt n (by norm_num); norm_num; omega)
  have ht : (n % 128 + 128).testBit 7 = true := by
    have := Nat.testBit_two_pow_add_eq (n % 128) 7
    norm_num [hx] at this
    simpa [Nat.add_comm] using this
  have h2 := Nat.and_two_pow (n % 128 + 128) 7
  norm_num [ht] at h2
  simpa [contBit] using h2

lemma varint_or_merge (n p : Nat) :
    ((n % 128) <<< p) ||| ((n / 128) <<< (p + 7)) = n <<< p := by
  rw [Nat.shiftLeft_eq, Nat.shiftLeft_eq, Nat.shiftLeft_eq]
  have hb : (n % 128) * 2 ^ p < 2 ^ (p + 7) := by
    have h1 : n % 128 < 2 ^ 7 := by
      have : n % 128 < 128 := Nat.mod_lt n (by norm_num)
      norm_num
      omega
    calc (n % 128) * 2 ^ p < 2 ^ 7 * 2 ^ p :=
          (Nat.mul_lt_mul_right (Nat.two_pow_pos p)).mpr h1
      _ = 2 ^ (p + 7) := by rw [← Nat.pow_add, Nat.add_comm]
  have hor := Nat.mul_add_lt_is_or hb (n / 128)
  have harith : 2 ^ (p + 7) * (n / 128) + (n % 128) * 2 ^ p = n * 2 ^ p := by
    have hdm := Nat.div_add_mod n 128
    have hpow : 2 ^ (p + 7) = 2 ^ p * 128 := by rw [Nat.pow_add]
    rw [hpow]
    conv_rhs => rw [← hdm]
    ring
  rw [Nat.or_comm, Nat.mul_comm (n / 128) (2 ^ (p + 7)), ← hor, harith]

lemma writeVarInt_of_lt {n : Nat} (h : n < 128) : writeVarInt n = [n] := by
  rw [writeVarInt]
  simp [h]

lemma writeVarInt_of_ge {n : Nat} (h : ¬ n < 128) :
    writeVarInt n = (n % 128 + 128) :: writeVarInt (n / 128) := by
  rw [writeVarInt]
  simp [h]

lemma readVarIntLoop_writeVarInt :
    ∀ n rest value p i, p % 7 = 0 → p ≤ 28 → n < 2 ^ (35 - p) →
      readVarIntLoop (writeVarInt n ++ rest) value p i =
        some (i + (writeVarInt n).length, value ||| (n <<< p)) := by
  intro n
  induction n using Nat.strong_induction_on with
  | _ n ih =>
    intro rest value p i hp7 hp28 hn
    by_cases h : n < 128
    · rw [writeVarInt_of_lt h]
      simp only [List.cons_append, List.nil_append, readVarIntLoop,
        and_127_eq_mod, and_128_of_lt h, if_pos rfl]
      rw [Nat.mod_eq_of_lt h]
      simp
    · rw [writeVarInt_of_ge h]
      have hne : p ≠ 28 := by
        intro hEq
        rw [hEq] at hn
        norm_num at hn
        omega
      have hple : p ≤ 21 := by omega
      simp only [List.cons_append, List.append_eq, readVarIntLoop, and_127_eq_mod,
        and_128_of_cont]
      rw [show (n % 128 + 128) % 128 = n % 128 from by omega]
      rw [if_neg (by norm_num), if_neg (by omega)]
      have hrec := ih (n / 128) (Nat.div_lt_self (by omega) (by norm_num))
        rest (value ||| ((n % 128) <<< p)) (p + 7) (i + 1)
        (by omega) (by omega)
        (by
          rw [(Nat.div_lt_iff_lt_mul (by norm_num : (0:Nat) < 128))]
          have h35 : 35 - p = (35 - (p + 7)) + 7 := by omega
          rw [h35, Nat.pow_add] at hn
          simpa using hn)
      rw [hrec, Nat.or_assoc, varint_or_merge]
      simp only [List.length_cons]
      congr 1
      congr 1
      omega

lemma readVarLongLoop_writeVarInt :
    ∀ n rest value p i, p % 7 = 0 → p ≤ 56 → n < 2 ^ (63 - p) →
      readVarLongLoop (writeVarInt n ++ rest) value p i =
        some (i + (writeVarInt n).length, value ||| (n <<< p)) := by
  intro n
  induction n using Nat.strong_induction_on with
  | _ n ih =>
    intro rest value p i hp7 hp56 hn
    have hmod : ∀ m : Nat, m < 128 → (m <<< p) % 2 ^ 64 = m <<< p := by
      intro m hm
      apply Nat.mod_eq_of_lt
      rw [Nat.shiftLeft_eq]
      calc m * 2 ^ p < 2 ^ 7 * 2 ^ p :=
            (Nat.mul_lt_mul_right (Nat.two_pow_pos p)).mpr (by norm_num; omega)
        _ = 2 ^ (7 + p) := by rw [Nat.pow_add]
        _ ≤ 2 ^ 64 := Nat.pow_le_pow_right (by norm_num) (by omega)
    by_cases h : n < 128
    · rw [writeVarInt_of_lt h]
      simp only [List.cons_append, List.nil_append, readVarLongLoop,
        and_127_eq_mod, and_128_of_lt h, if_pos rfl]
      rw [Nat.mod_eq_of_lt h, hmod n h]
      simp
    · rw [writeVarInt_of_ge h]
      have hne : p ≠ 56 := by
        intro hEq
        rw [hEq] at hn
        norm_num at hn
        omega
      have hple : p ≤ 49 := by omega
      simp only [List.cons_append, List.append_eq, readVarLongLoop, and_127_eq_mod,
        and_128_of_cont]
      rw [show (n % 128 + 128) % 128 = n % 128 from by omega]
      rw [hmod (n % 128) (by omega)]
      rw [if_neg (by norm_num), if_neg (by omega)]
      have hrec := ih (n / 128) (Nat.div_lt_self (by omega) (by norm_num))
        rest (value ||| ((n % 128) <<< p)) (p + 7) (i + 1)
        (by omega) (by omega)
        (by
          rw [(Nat.div_lt_iff_lt_mul (by norm_num : (0:Nat) < 128))]
          have h63 : 63 - p = (63 - (p + 7)) + 7 := by omega
          rw [h63, Nat.pow_add] at hn
          simpa using hn)
      rw [hrec, Nat.or_assoc, varint_or_merge]
      simp only [List.length_cons]
      congr 1
      congr 1
      omega

lemma beBytes_length (w n : Nat) : (beBytes w n).length = w := by
  induction w generalizing n with
  | zero => rfl
  | succ w ih => simp [beBytes, ih]

lemma leBytes_length (w n : Nat) : (leBytes w n).length = w := by
  induction w generalizing n with
  | zero => rfl
  | succ w ih => simp [leBytes, ih]

lemma beUint_append_singleton (xs : List Nat) (b : Nat) :
    beUint (xs ++ [b]) = beUint xs * 256 + b := by
  simp [beUint, List.foldl_append]

lemma beUint_beBytes {w n : Nat} (h : n < 256 ^ w) : beUint (beBytes w n) = n := by
  induction w generalizing n with
  | zero =>
    simp at h
    simp [beBytes, beUint, h]
  | succ w ih =>
    have hdiv : n / 256 < 256 ^ w := by
      rw [Nat.div_lt_iff_lt_mul (by norm_num : (0:Nat) < 256)]
      rw [Nat.pow_succ] at h
      exact h
    rw [beBytes, beUint_append_singleton, ih hdiv]
    omega

lemma leUint_leBytes {w n : Nat} (h : n < 256 ^ w) : leUint (leBytes w n) = n := by
  induction w generalizing n with
  | zero =>
    simp at h
    simp [leBytes, leUint, h]
  | succ w ih =>
    have hdiv : n / 256 < 256 ^ w := by
      rw [Nat.div_lt_iff_lt_mul (by norm_num : (0:Nat) < 256)]
      rw [Nat.pow_succ] at h
      exact h
    rw [leBytes, leUint, ih hdiv]
    omega

lemma extract_finish (pl : PrefixLength) (buffer : List Nat) (plen : Nat)
    (payload : List Nat)
    (hd : declaredSize pl buffer = some (plen, (payload.length : Int)))
    (hdrop : buffer.drop plen = payload) :
    lengthPrefixedExtractPacket pl buffer = .res (some payload) [] true := by
  unfold lengthPrefixedExtractPacket
  rw [hd]
  simp [hdrop, Int.not_lt.mpr (Int.natCast_nonneg payload.length)]

/-- C2: for every length-prefix kind (16-, 32- and 64-bit in big and little
endian, VarInt, VarLong) and every payload whose length fits that encoding,
`ExtractPacket` applied to the buffer made of the encoded payload length
followed by the payload bytes returns exactly that payload, an empty rest,
and `extracted = true`. -/
theorem lengthPrefixedExtractPacket_roundTrip (pl : PrefixLength) (payload : List Nat)
    (h : fitsPrefix pl payload.length) :
    lengthPrefixedExtractPacket pl (encodePrefix pl payload.length ++ payload) =
      .res (some payload) [] true := by
  cases pl
  case varInt =>
    simp only [fitsPrefix] at h
    apply extract_finish _ _ ((writeVarInt payload.length).length) payload
    · have hrd := readVarIntLoop_writeVarInt payload.length payload 0 0 0
        (by norm_num) (by norm_num)
        (lt_of_lt_of_le h (Nat.pow_le_pow_right (by norm_num) (by norm_num)))
      simp only [Nat.zero_or, Nat.shiftLeft_zero, Nat.zero_add] at hrd
      simp only [declaredSize, fixedPrefixWidth, encodePrefix, Nat.zero_le, ge_iff_le,
        if_pos, readVarIntPacketSize]
      rw [hrd]
      simp
    · simp only [encodePrefix]
      exact List.drop_left _ _
  case varLong =>
    simp only [fitsPrefix] at h
    apply extract_finish _ _ ((writeVarInt payload.length).length) payload
    · have hrd := readVarLongLoop_writeVarInt payload.length payload 0 0 0
        (by norm_num) (by norm_num) (by simpa using h)
      simp only [Nat.zero_or, Nat.shiftLeft_zero, Nat.zero_add] at hrd
      simp only [declaredSize, fixedPrefixWidth, encodePrefix, Nat.zero_le, ge_iff_le,
        if_pos, readVarLongPacketSize]
      rw [hrd]
      have h9 : payload.length < 9223372036854775808 := by norm_num at h; exact h
      simp only [Option.map, toInt64]
      rw [if_pos (by omega)]
    · simp only [encodePrefix]
      exact List.drop_left _ _
  case int16BE =>
    simp only [fitsPrefix] at h
    have hlen : (beBytes 2 payload.length).length = 2 := beBytes_length 2 _
    apply extract_finish _ _ 2 payload
    · have htake := List.take_left (beBytes 2 payload.length) payload
      rw [hlen] at htake
      have hval : beUint (beBytes 2 payload.length) = payload.length :=
        beUint_beBytes (lt_of_lt_of_le h (by norm_num))
      simp only [declaredSize, fixedPrefixWidth, encodePrefix, ge_iff_le,
        List.length_append, hlen]
      rw [if_pos (by omega), htake, hval]
    · show (beBytes 2 payload.length ++ payload).drop 2 = payload
      have hdrop := List.drop_left (beBytes 2 payload.length) payload
      rw [hlen] at hdrop
      exact hdrop
  case int16LE =>
    simp only [fitsPrefix] at h
    have hlen : (leBytes 2 payload.length).length = 2 := leBytes_length 2 _
    apply extract_finish _ _ 2 payload
    · have htake := List.take_left (leBytes 2 payload.length) payload
      rw [hlen] at htake
      have hval : leUint (leBytes 2 payload.length) = payload.length :=
        leUint_leBytes (lt_of_lt_of_le h (by norm_num))
      simp only [declaredSize, fixedPrefixWidth, encodePrefix, ge_iff_le,
        List.length_append, hlen]
      rw [if_pos (by omega), htake, hval]
    · show (leBytes 2 payload.length ++ payload).drop 2 = payload
      have hdrop := List.drop_left (leBytes 2 payload.length) payload
      rw [hlen] at hdrop
      exact hdrop
  case int32BE =>
    simp only [fitsPrefix] at h
    have hlen : (beBytes 4 payload.length).length = 4 := beBytes_length 4 _
    apply extract_finish _ _ 4 payload
    · have htake := List.take_left (beBytes 4 payload.length) payload
      rw [hlen] at htake
      have hval : beUint (beBytes 4 payload.length) = payload.length :=
        beUint_beBytes (lt_of_lt_of_le h (by norm_num))
      simp only [declaredSize, fixedPrefixWidth, encodePrefix, ge_iff_le,
        List.length_append, hlen]
      rw [if_pos (by omega), htake, hval]
    · show (beBytes 4 payload.length ++ payload).drop 4 = payload
      have hdrop := List.drop_left (beBytes 4 payload.length) payload
      rw [hlen] at hdrop
      exact hdrop
  case int32LE =>
    simp only [fitsPrefix] at h
    have hlen : (leBytes 4 payload.length).length = 4 := leBytes_length 4 _
    apply extract_finish _ _ 4 payload
    · have htake := List.take_left (leBytes 4 payload.length) payload
      rw [hlen] at htake
      have hval : leUint (leBytes 4 payload.length) = payload.length :=
        leUint_leBytes (lt_of_lt_of_le h (by norm_num))
      simp only [declaredSize, fixedPrefixWidth, encodePrefix, ge_iff_le,
        List.length_append, hlen]
      rw [if_pos (by omega), htake, hval]
    · show (leBytes 4 payload.length ++ payload).drop 4 = payload
      have hdrop := List.drop_left (leBytes 4 payload.length) payload
      rw [hlen] at hdrop
      exact hdrop
  case int64BE =>
    simp only [fitsPrefix] at h
    have hlen : (beBytes 8 payload.length).length = 8 := beBytes_length 8 _
    apply extract_finish _ _ 8 payload
    · have htake := List.take_left (beBytes 8 payload.length) payload
      rw [hlen] at htake
      have hval : beUint (beBytes 8 payload.length) = payload.length :=
        beUint_beBytes (lt_of_lt_of_le h (by norm_num))
      simp only [declaredSize, fixedPrefixWidth, encodePrefix, ge_iff_le,
        List.length_append, hlen]
      rw [if_pos (by omega), htake, hval]
      have h9 : payload.length < 9223372036854775808 := by norm_num at h; exact h
      simp only [toInt64]
      rw [if_pos (by omega)]
    · show (beBytes 8 payload.length ++ payload).drop 8 = payload
      have hdrop := List.drop_left (beBytes 8 payload.length) payload
      rw [hlen] at hdrop
      exact hdrop
  case int64LE =>
    simp only [fitsPrefix] at h
    have hlen : (leBytes 8 payload.length).length = 8 := leBytes_length 8 _
    apply extract_finish _ _ 8 payload
    · have htake := List.take_left (leBytes 8 payload.length) payload
      rw [hlen] at htake
      have hval : leUint (leBytes 8 payload.length) = payload.length :=
        leUint_leBytes (lt_of_lt_of_le h (by norm_num))
      simp only [declaredSize, fixedPrefixWidth, encodePrefix, ge_iff_le,
        List.length_append, hlen]
      rw [if_pos (by omega), htake, hval]
      have h9 : payload.length < 9223372036854775808 := by norm_num at h; exact h
      simp only [toInt64]
      rw [if_pos (by omega)]
    · show (leBytes 8 payload.length ++ payload).drop 8 = payload
      have hdrop := List.drop_left (leBytes 8 payload.length) payload
      rw [hlen] at hdrop
      exact hdrop

lemma readVarIntLoop_consumed_le :
    ∀ (buffer : List Nat) (value p i j v : Nat),
      readVarIntLoop buffer value p i = some (j, v) → j ≤ i + buffer.length := by
  intro buffer
  induction buffer with
  | nil => intro value p i j v hcontra; simp [readVarIntLoop] at hcontra
  | cons b rest ih =>
    intro value p i j v hsome
    simp only [readVarIntLoop] at hsome
    by_cases hb : b &&& contBit = 0
    · rw [if_pos hb] at hsome
      simp at hsome
      simp [← hsome.1]
    · rw [if_neg hb] at hsome
      by_cases hp : p + 7 ≥ 32
      · rw [if_pos hp] at hsome; simp at hsome
      · rw [if_neg hp] at hsome
        have := ih _ _ _ _ _ hsome
        simp only [List.length_cons]
        omega

lemma readVarLongLoop_consumed_le :
    ∀ (buffer : List Nat) (value p i j v : Nat),
      readVarLongLoop buffer value p i = some (j, v) → j ≤ i + buffer.length := by
  intro buffer
  induction buffer with
  | nil => intro value p i j v hcontra; simp [readVarLongLoop] at hcontra
  | cons b rest ih =>
    intro value p i j v hsome
    simp only [readVarLongLoop] at hsome
    by_cases hb : b &&& contBit = 0
    · rw [if_pos hb] at hsome
      simp at hsome
      simp [← hsome.1]
    · rw [if_neg hb] at hsome
      by_cases hp : p + 7 ≥ 64
      · rw [if_pos hp] at hsome; simp at hsome
      · rw [if_neg hp] at hsome
        have := ih _ _ _ _ _ hsome
        simp only [List.length_cons]
        omega

lemma declaredSize_plen_le {pl : PrefixLength} {buffer : List Nat} {plen : Nat} {sz : Int}
    (hd : declaredSize pl buffer = some (plen, sz)) : plen ≤ buffer.length := by
  unfold declaredSize at hd
  by_cases hw : buffer.length ≥ fixedPrefixWidth pl
  · rw [if_pos hw] at hd
    cases pl
    · -- varInt
      match hsz : readVarIntPacketSize buffer with
      | none => rw [hsz] at hd; simp at hd
      | some (j, v) =>
        rw [hsz] at hd
        simp at hd
        have hsz2 : readVarIntLoop buffer 0 0 0 = some (j, v) := hsz
        have hle := readVarIntLoop_consumed_le buffer 0 0 0 j v hsz2
        omega
    · -- varLong
      match hsz : readVarLongPacketSize buffer with
      | none => rw [hsz] at hd; simp at hd
      | some (j, v) =>
        rw [hsz] at hd
        simp at hd
        have hsz2 : readVarLongLoop buffer 0 0 0 = some (j, v) := hsz
        have hle := readVarLongLoop_consumed_le buffer 0 0 0 j v hsz2
        omega
    all_goals simp only [fixedPrefixWidth] at hw
    all_goals simp at hd
    all_goals omega
  · rw [if_neg hw] at hd
    exact absurd hd (by simp)

/-- C8: for every length-prefixed framing kind, `ExtractPacket` applied to a
buffer holding fewer bytes than the prefix length plus the declared payload
length returns no packet and `extracted = false`, with the rest equal to the
entire unmodified input buffer. -/
theorem lengthPrefixedExtractPacket_short (pl : PrefixLength) (buffer : List Nat)
    (plen : Nat) (sz : Int)
    (hd : declaredSize pl buffer = some (plen, sz))
    (hshort : (buffer.length : Int) < plen + sz) :
    lengthPrefixedExtractPacket pl buffer = .res none buffer false := by
  have hple := declaredSize_plen_le hd
  have hcond : ¬ (sz ≤ ((buffer.length - plen : Nat) : Int)) := by
    rw [Nat.cast_sub hple]
    omega
  unfold lengthPrefixedExtractPacket
  rw [hd]
  simp [ge_iff_le, List.length_drop, hcond]

/-- Witness for C2 at a concrete input: the VarInt framing round-trips the
3-byte payload `[7, 8, 9]`. -/
theorem lengthPrefixedExtractPacket_roundTrip_witness :
    fitsPrefix .varInt ([7, 8, 9] : List Nat).length ∧
      lengthPrefixedExtractPacket .varInt
          (encodePrefix .varInt ([7, 8, 9] : List Nat).length ++ [7, 8, 9]) =
        .res (some [7, 8, 9]) [] true :=
  ⟨by decide, lengthPrefixedExtractPacket_roundTrip .varInt [7, 8, 9] (by decide)⟩

/-- Witness for C8 at a concrete input: a 32-bit big-endian prefix declaring
10 payload bytes with only 2 of them buffered extracts nothing and leaves
the buffer whole. -/
theorem lengthPrefixedExtractPacket_short_witness :
    declaredSize .int32BE [0, 0, 0, 10, 1, 2] = some (4, (10 : Int)) ∧
      (([0, 0, 0, 10, 1, 2] : List Nat).length : Int) < 4 + 10 ∧
      lengthPrefixedExtractPacket .int32BE [0, 0, 0, 10, 1, 2] =
        .res none [0, 0, 0, 10, 1, 2] false :=
  ⟨by decide, by decide,
    lengthPrefixedExtractPacket_short .int32BE [0, 0, 0, 10, 1, 2] 4 10
      (by decide) (by decide)⟩

/-- First index at which `sep` occurs as a contiguous subsequence of
`buffer` (`bytes.Index`); `none` when absent. -/
def bytesIndex (sep : List Nat) : List Nat → Option Nat
  | [] => if sep.isPrefixOf ([] : List Nat) then some 0 else none
  | b :: rest =>
    if sep.isPrefixOf (b :: rest) then some 0
    else (bytesIndex sep rest).map (· + 1)

/-- `bytes.Cut(buffer, sep)` as used by
`separatorFramingProtocol.ExtractPacket` in `tinytcp/framing.go`: splits at
the first occurrence of `sep`, returning `(before, after, true)`, or
`(buffer, nil, false)` when `sep` does not occur. -/
def bytesCut (buffer sep : List Nat) : List Nat × List Nat × Bool :=
  match bytesIndex sep buffer with
  | some i => (buffer.take i, buffer.drop (i + sep.length), true)
  | none => (buffer, [], false)

/-- The configuration record of `PacketFramingHandler`
(`PacketFramingConfig` in `tinytcp/framing.go`), after the constructor has
merged defaults and options and clamped `minReadSpace`; the defaults are
`readBufferSize = 4096`, `maxPacketSize = 16384`, `minReadSpace = 1024`. -/
structure PacketFramingConfig where
  readBufferSize : Nat
  maxPacketSize : Nat
  minReadSpace : Nat
deriving DecidableEq, Repr

/-- The per-connection state of the `PacketFramingHandler` loop in
`tinytcp/framing.go`: the fixed-size `readBuffer` page, the spill-over
`receiveBuffer` (the empty list doubles for Go's `nil` buffer: the code
only ever tests `receiveBuffer.Len() > 0` and adds `receiveBuffer.Len()`),
the two offsets, and the packets handed to the `OnPacket` callback so far,
in order. -/
structure FramingState where
  readBuffer : List Nat
  receiveBuffer : List Nat
  leftOffset : Nat
  rightOffset : Nat
  packets : List (List Nat)
deriving DecidableEq, Repr

/-- `copy(dst[offset:], src)` for `offset + src.length ≤ dst.length`: the
effect of `socket.Read(readBuffer[rightOffset:])` returning `src.length`
bytes. -/
def listWrite (dst : List Nat) (offset : Nat) (src : List Nat) : List Nat :=
  dst.take offset ++ src ++ dst.drop (offset + src.length)

/-- The inner `for` loop of `PacketFramingHandler` (`tinytcp/framing.go`):
repeatedly calls `ExtractPacket` (here: the separator protocol) on
`source`, on success advancing both offsets by `len(packet) + excessBytes`
and emitting the packet, on failure either resetting the offsets (empty
source), spilling into the receive buffer (no room for another read), or
bumping `rightOffset`.  `fuel` bounds the recursion; every call supplies
`source.length + 1`, which is enough for any non-empty separator since each
extraction consumes at least `len(sep)` bytes of `source`. -/
def framingLoop (cfg : PacketFramingConfig) (sep : List Nat) :
    Nat → List Nat → FramingState → FramingState
  | 0, _, st => st
  | fuel + 1, source, st =>
    let (packet, rest, extracted) := bytesCut source sep
    if extracted then
      let excessBytes := source.length - packet.length - rest.length
      framingLoop cfg sep fuel rest
        { st with
          leftOffset := st.leftOffset + packet.length + excessBytes
          rightOffset := st.rightOffset + packet.length + excessBytes
          packets := st.packets ++ [packet] }
    else
      if source.length = 0 then
        { st with leftOffset := 0, rightOffset := 0 }
      else if st.rightOffset + source.length > cfg.readBufferSize - cfg.minReadSpace then
        { st with receiveBuffer := st.receiveBuffer ++ source, leftOffset := 0, rightOffset := 0 }
      else
        { st with rightOffset := st.rightOffset + source.length }

/-- One iteration of the outer `for` loop of `PacketFramingHandler` for a
successful `Read` that deposited `chunk` at `readBuffer[rightOffset:]`
(so `bytesRead = chunk.length`, which the caller keeps
`≤ readBufferSize - rightOffset`): the max-packet-size guard, the merge
with a non-empty receive buffer, then the inner extraction loop. -/
def framingStep (cfg : PacketFramingConfig) (sep : List Nat)
    (st : FramingState) (chunk : List Nat) : FramingState :=
  let rb := listWrite st.readBuffer st.rightOffset chunk
  let memoryNeeded :=
    st.rightOffset + chunk.length - st.leftOffset + st.receiveBuffer.length
  if 0 < cfg.maxPacketSize ∧ cfg.maxPacketSize < memoryNeeded then
    { st with readBuffer := rb, receiveBuffer := [], leftOffset := 0, rightOffset := 0 }
  else
    let source0 := (rb.drop st.leftOffset).take (st.rightOffset + chunk.length - st.leftOffset)
    let source := st.receiveBuffer ++ source0
    framingLoop cfg sep (source.length + 1) source
      { st with readBuffer := rb, receiveBuffer := [] }

/-- Running `PacketFramingHandler` over a sequence of read chunks, from the
initial state (zeroed read buffer of `readBufferSize` bytes, no spill-over,
both offsets at 0, no packets emitted). -/
def runFraming (cfg : PacketFramingConfig) (sep : List Nat)
    (chunks : List (List Nat)) : FramingState :=
  chunks.foldl (framingStep cfg sep) ⟨List.replicate cfg.readBufferSize 0, [], 0, 0, []⟩

/-- C1 (failing input): with separator `[10]` and the (legal) configuration
`readBufferSize = 8`, `maxPacketSize = 16`, `minReadSpace = 2`, the byte
stream for the two separator-free payloads `[1, 2, 3, 4]` and `[5, 6, 7]`
(both well under the maximum packet size), delivered as the four read
chunks `[1,2,3,4,10,5]`, `[6]`, `[7]`, `[10]` (each of which fits the free
space of the read buffer at its read), makes the handler emit `[7, 2, 3]`
as its second packet — stale read-buffer bytes instead of `[5, 6, 7]`.
After the inner loop spills a fragment into the receive buffer and the next
iteration merges it, the `rightOffset + len(source) ≤ len(readBuffer) -
minReadSpace` branch advances `rightOffset` as if `source` lived in the
read buffer, but the merged bytes exist only in the receive buffer's
backing array, which was just `Reset()`. -/
theorem packetFramingHandler_corrupts_spilled_fragment :
    ([[1, 2, 3, 4, 10, 5], [6], [7], [10]] : List (List Nat)).flatten
        = [1, 2, 3, 4] ++ [10] ++ [5, 6, 7] ++ [10] ∧
      (runFraming ⟨8, 16, 2⟩ [10] [[1, 2, 3, 4, 10, 5], [6], [7], [10]]).packets
        = [[1, 2, 3, 4], [7, 2, 3]] ∧
      [[1, 2, 3, 4], [7, 2, 3]] ≠ [[(1 : Nat), 2, 3, 4], [5, 6, 7]] := by
  decide

/-- State of a `socketsList` from `tinytcp/sockets_list.go`: the doubly
linked list of registered sockets is modelled as the list of their closed
flags in registration order (`registerSocket` appends at the tail), plus
the `size` counter and the configured `maxSize` (a Go `int`, so an `Int`:
negative values mean no limit). -/
structure SocketsListState where
  nodes : List Bool
  size : Nat
  maxSize : Int
deriving DecidableEq, Repr

/-- `newSocketsList(maxSize)`: empty list, zero size. -/
def newSocketsList (maxSize : Int) : SocketsListState :=
  ⟨[], 0, maxSize⟩

/-- `socketsList.registerSocket` from `tinytcp/sockets_list.go`: under the
lock, rejects when `maxSize >= 0 && size >= maxSize`, otherwise appends a
new (open) node at the tail and increments `size`. -/
def registerSocket (s : SocketsListState) : SocketsListState × Bool :=
  if s.maxSize ≥ 0 ∧ (s.size : Int) ≥ s.maxSize then (s, false)
  else ({ s with nodes := s.nodes ++ [false], size := s.size + 1 }, true)

/-- Outcome of `socketsList.New` from `tinytcp/sockets_list.go`:
`admitted` is whether a socket (non-`nil`) was returned;
`connectionClosed` and `recycled` record whether the rejection path
`socket.connection.Close(); s.recycleSocket(socket)` ran. -/
structure NewSocketResult where
  state : SocketsListState
  admitted : Bool
  connectionClosed : Bool
  recycled : Bool
deriving DecidableEq, Repr

/-- `socketsList.New`: builds a socket from the pools, tries
`registerSocket`; on rejection instantly closes the connection, recycles
the pooled objects and returns `nil`. -/
def socketsListNew (s : SocketsListState) : NewSocketResult :=
  let (s2, registered) := registerSocket s
  if registered then ⟨s2, true, false, false⟩
  else ⟨s2, false, true, true⟩

/-- `socketsList.Cleanup` from `tinytcp/sockets_list.go`: walks the list
once under the write lock, unlinking and recycling every socket whose
closed flag is set, decrementing `size` per removed node. -/
def socketsListCleanup (s : SocketsListState) : SocketsListState :=
  { s with
    nodes := s.nodes.filter (fun closed => !closed)
    size := s.size - (s.nodes.filter (fun closed => closed)).length }

/-- Marking the socket at position `i` closed: the effect, on the
registry, of a (concurrent) `Socket.Close` setting the `isClosed` flag.
The node stays linked until the next `Cleanup` pass. -/
def closeSocketAt (s : SocketsListState) (i : Nat) : SocketsListState :=
  { s with nodes := s.nodes.set i true }

/-- The registry operations that can touch a `socketsList` after
construction: an admission (`New`), a sweep (`Cleanup`), or a socket
closing (which only flips a flag). -/
inductive RegistryOp where
  | admitOp : RegistryOp
  | sweep : RegistryOp
  | close (i : Nat) : RegistryOp
deriving DecidableEq, Repr

/-- One registry operation applied to the state. -/
def registryStep (s : SocketsListState) (op : RegistryOp) : SocketsListState :=
  match op with
  | .admitOp => (socketsListNew s).state
  | .sweep => socketsListCleanup s
  | .close i => closeSocketAt s i

/-- A `socketsList` built with `newSocketsList maxSize` after an arbitrary
sequence of operations. -/
def registryRun (maxSize : Int) (ops : List RegistryOp) : SocketsListState :=
  ops.foldl registryStep (newSocketsList maxSize)

lemma filter_length_split (l : List Bool) :
    (l.filter (fun c => !c)).length + (l.filter (fun c => c)).length = l.length := by
  induction l with
  | nil => rfl
  | cons b rest ih =>
    cases b <;> simp [List.filter, ih] <;> omega

lemma registryRun_invariant (K : Int) (ops : List RegistryOp) :
    (registryRun K ops).maxSize = K ∧
      (registryRun K ops).size = (registryRun K ops).nodes.length ∧
      (0 < K → ((registryRun K ops).size : Int) ≤ K) := by
  suffices h : ∀ s : SocketsListState, s.maxSize = K →
      s.size = s.nodes.length → (0 < K → (s.size : Int) ≤ K) →
      (ops.foldl registryStep s).maxSize = K ∧
        (ops.foldl registryStep s).size = (ops.foldl registryStep s).nodes.length ∧
        (0 < K → ((ops.foldl registryStep s).size : Int) ≤ K) by
    exact h (newSocketsList K) rfl rfl (by simp [newSocketsList]; omega)
  induction ops with
  | nil => intro s h1 h2 h3; exact ⟨h1, h2, h3⟩
  | cons op rest ih =>
    intro s h1 h2 h3
    simp only [List.foldl_cons]
    apply ih
    · cases op with
      | admitOp =>
        simp only [registryStep, socketsListNew, registerSocket]
        split <;> simp [h1]
      | sweep => simp [registryStep, socketsListCleanup, h1]
      | close i => simp [registryStep, closeSocketAt, h1]
    · cases op with
      | admitOp =>
        simp only [registryStep, socketsListNew, registerSocket]
        split
        · simp [h2]
        · simp [h2]
      | sweep =>
        simp only [registryStep, socketsListCleanup]
        have := filter_length_split s.nodes
        simp only [h2]
        omega
      | close i =>
        simp [registryStep, closeSocketAt, h2]
    · cases op with
      | admitOp =>
        intro hK
        simp only [registryStep, socketsListNew, registerSocket]
        split
        · next hcond => simpa using h3 hK
        · next hcond =>
          rw [h1] at hcond
          simp only [not_and, not_le] at hcond
          have : (s.size : Int) < K := by
            by_cases hKge : (0 : Int) ≤ K
            · exact hcond hKge
            · omega
          simp
          omega
      | sweep =>
        intro hK
        simp only [registryStep, socketsListCleanup]
        have := h3 hK
        omega
      | close i =>
        intro hK
        simpa [registryStep, closeSocketAt] using h3 hK

/-- C3: a registry built with `maxSize = K > 0` never holds more than `K`
registered sockets, whatever sequence of admissions, sweeps and socket
closings happens; and when its size has reached `K`, an admission attempt
returns no socket, leaves the registry unchanged, and immediately closes
and recycles the new connection. -/
theorem socketsList_bounded (K : Int) (ops : List RegistryOp) (hK : 0 < K) :
    ((registryRun K ops).size : Int) ≤ K ∧
      (((registryRun K ops).size : Int) ≥ K →
        socketsListNew (registryRun K ops) =
          ⟨registryRun K ops, false, true, true⟩) := by
  obtain ⟨h1, h2, h3⟩ := registryRun_invariant K ops
  refine ⟨h3 hK, fun hfull => ?_⟩
  unfold socketsListNew registerSocket
  rw [if_pos (by rw [h1]; exact ⟨by omega, hfull⟩)]
  simp

/-- Witness for C3: with `K = 1`, after one admission the registry holds
one socket (`≤ 1`), and a second admission is rejected with the connection
closed and recycled. -/
theorem socketsList_bounded_witness :
    ((registryRun 1 [.admitOp]).size : Int) ≤ 1 ∧
      (((registryRun 1 [.admitOp]).size : Int) ≥ 1 →
        socketsListNew (registryRun 1 [.admitOp]) =
          ⟨registryRun 1 [.admitOp], false, true, true⟩) :=
  socketsList_bounded 1 [.admitOp] (by decide)

/-- The admission-relevant state of a `Server` from `tinytcp/server.go`:
the embedded linked list of connected sockets (closed flags, in
registration order), the `socketsCount` counter, and the configured
`MaxClients` (a Go `int`; `tinytcp/config.go` documents `-1` as "no
limit"). -/
structure ServerAdmissionState where
  nodes : List Bool
  socketsCount : Nat
  maxClients : Int
deriving DecidableEq, Repr

/-- `Server.registerConnectedSocket` from `tinytcp/server.go`: under the
lock, rejects when `MaxClients >= 0 && socketsCount >= MaxClients`,
otherwise appends a node at the tail and increments the counter. -/
def registerConnectedSocket (s : ServerAdmissionState) : ServerAdmissionState × Bool :=
  if s.maxClients ≥ 0 ∧ (s.socketsCount : Int) ≥ s.maxClients then (s, false)
  else ({ s with nodes := s.nodes ++ [false], socketsCount := s.socketsCount + 1 }, true)

/-- C6 (counterexample): with the maximum size configured to exactly `0`
(which is `≤ 0`), the very first admission — on an empty registry and on an
empty server — is rejected and the connection closed, so a non-positive
maximum does not mean unbounded admission. -/
theorem admission_at_zero_rejected :
    (socketsListNew (newSocketsList 0)).admitted = false ∧
      (socketsListNew (newSocketsList 0)).connectionClosed = true ∧
      (registerConnectedSocket ⟨[], 0, 0⟩).2 = false := by
  decide

/-- C6 (amended): admission is unbounded exactly for a negative configured
maximum (`maxSize < 0` for the registry, `MaxClients < 0` for the server):
with a negative maximum every admission succeeds regardless of the current
size, while a maximum of `0` rejects every admission. -/
theorem admission_unbounded_iff_negative (sl : SocketsListState)
    (sv : ServerAdmissionState) (hsl : sl.maxSize < 0) (hsv : sv.maxClients < 0) :
    (registerSocket sl).2 = true ∧ (socketsListNew sl).admitted = true ∧
      (registerConnectedSocket sv).2 = true := by
  have h1 : (registerSocket sl).2 = true := by
    unfold registerSocket
    rw [if_neg (by omega)]
  refine ⟨h1, ?_, ?_⟩
  · unfold socketsListNew
    rcases hreg : registerSocket sl with ⟨s2, flag⟩
    rw [hreg] at h1
    simp at h1
    simp [h1]
  · unfold registerConnectedSocket
    rw [if_neg (by omega)]

/-- Witness for the amended C6: with `maxSize = MaxClients = -1` both the
empty registry and a server already holding five sockets accept the next
connection. -/
theorem admission_unbounded_iff_negative_witness :
    (registerSocket (newSocketsList (-1))).2 = true ∧
      (socketsListNew (newSocketsList (-1))).admitted = true ∧
      (registerConnectedSocket ⟨[false, false, false, false, false], 5, -1⟩).2 = true :=
  admission_unbounded_iff_negative (newSocketsList (-1))
    ⟨[false, false, false, false, false], 5, -1⟩ (by decide) (by decide)

/-- The close-relevant state of a `Socket` (`Socket.Close`, `Socket.OnClose`
in the tinytcp socket file): the `sync.Once` latch (`onceDone`), the
`isClosed` flag, the ordered list of registered close handlers (as opaque
identifiers), and the observable history: how many times the underlying
connection was closed and which handlers ran, in invocation order. -/
structure SocketCloseState where
  onceDone : Bool
  isClosed : Bool
  closeHandlers : List Nat
  connCloseCount : Nat
  invoked : List Nat
deriving DecidableEq, Repr

/-- `Socket.Close`: inside `closeOnce.Do` it sets `isClosed`, closes the
underlying connection, and runs the registered close handlers from the last
index down to 0 (reverse registration order); once the latch has fired,
every later call is a no-op.  The method always returns `nil`. -/
def socketClose (s : SocketCloseState) : SocketCloseState :=
  if s.onceDone then s
  else
    { s with
      onceDone := true
      isClosed := true
      connCloseCount := s.connCloseCount + 1
      invoked := s.invoked ++ s.closeHandlers.reverse }

/-- `Socket.OnClose`: appends the handler to the list under the handlers
lock; nothing else happens, whatever the close state. -/
def socketOnClose (s : SocketCloseState) (handler : Nat) : SocketCloseState :=
  { s with closeHandlers := s.closeHandlers ++ [handler] }

lemma socketClose_idem (s : SocketCloseState) :
    socketClose (socketClose s) = socketClose s := by
  by_cases h : s.onceDone
  · simp [socketClose, h]
  · simp [socketClose, h]

/-- C4: socket close is idempotent.  Starting from any socket whose
close-once latch has not fired, any positive number of `Close` calls
produces exactly the state of a single call: the underlying connection is
closed exactly once, and the close listeners registered before the close
are invoked exactly once each, in reverse registration order; every call
after the first is a no-op. -/
theorem socketClose_idempotent (s : SocketCloseState) (n : Nat)
    (hopen : s.onceDone = false) (hn : 1 ≤ n) :
    socketClose^[n] s = socketClose s ∧
      (socketClose s).connCloseCount = s.connCloseCount + 1 ∧
      (socketClose s).invoked = s.invoked ++ s.closeHandlers.reverse := by
  refine ⟨?_, ?_, ?_⟩
  · obtain ⟨m, rfl⟩ : ∃ m, n = m + 1 := ⟨n - 1, by omega⟩
    clear hn
    induction m with
    | zero => simp
    | succ m ih =>
      rw [Function.iterate_succ_apply' socketClose (m + 1) s, ih, socketClose_idem]
  · unfold socketClose
    rw [if_neg (by simp [hopen])]
  · unfold socketClose
    rw [if_neg (by simp [hopen])]

/-- Witness for C4: a fresh socket with three listeners, closed three
times: the connection closes once and the listeners run once each, in
reverse order. -/
theorem socketClose_idempotent_witness :
    socketClose^[3] ⟨false, false, [1, 2, 3], 0, []⟩ =
        socketClose ⟨false, false, [1, 2, 3], 0, []⟩ ∧
      (socketClose ⟨false, false, [1, 2, 3], 0, []⟩).connCloseCount = 0 + 1 ∧
      (socketClose ⟨false, false, [1, 2, 3], 0, []⟩).invoked = [] ++ [1, 2, 3].reverse :=
  socketClose_idempotent ⟨false, false, [1, 2, 3], 0, []⟩ 3 rfl (by decide)

/-- C7 (counterexample): a listener registered via `OnClose` after the
socket has been closed never fires.  Closing a fresh socket, then
registering listener `7`, then calling `Close` again leaves the invocation
history empty: `OnClose` does not invoke the listener on registration and
the second `Close` is a latched no-op. -/
theorem socketOnClose_after_close_never_fires :
    (socketOnClose (socketClose ⟨false, false, [], 0, []⟩) 7).invoked = [] ∧
      (socketClose (socketOnClose (socketClose ⟨false, false, [], 0, []⟩) 7)).invoked
        = [] := by
  decide

/-- C7 (amended): a listener registered before `Close` fires exactly once,
in reverse registration order (this is C4); a listener registered via
`OnClose` after the close latch has fired is appended to the handler list
but is never invoked — registration does not fire it, and any number of
further `Close` calls leaves the invocation history unchanged. -/
theorem socketOnClose_after_close (s : SocketCloseState) (handler : Nat) (n : Nat)
    (hclosed : s.onceDone = true) :
    (socketOnClose s handler).closeHandlers = s.closeHandlers ++ [handler] ∧
      (socketOnClose s handler).invoked = s.invoked ∧
      (socketClose^[n] (socketOnClose s handler)).invoked = s.invoked := by
  refine ⟨rfl, rfl, ?_⟩
  have hfix : socketClose (socketOnClose s handler) = socketOnClose s handler := by
    unfold socketClose
    rw [if_pos (by simp [socketOnClose, hclosed])]
  induction n with
  | zero => rfl
  | succ n ih => rw [Function.iterate_succ_apply, hfix, ih]

/-- Witness for the amended C7: on a closed socket, registering listener
`9` leaves it pending in the list and two further `Close` calls never
invoke it. -/
theorem socketOnClose_after_close_witness :
    (socketOnClose ⟨true, true, [1], 1, [1]⟩ 9).closeHandlers = [1] ++ [9] ∧
      (socketOnClose ⟨true, true, [1], 1, [1]⟩ 9).invoked = [1] ∧
      (socketClose^[2] (socketOnClose ⟨true, true, [1], 1, [1]⟩ 9)).invoked = [1] :=
  socketOnClose_after_close ⟨true, true, [1], 1, [1]⟩ 9 2 rfl

/-- The server state observed by the background job and by `Stop`
(`tinytcp/server.go`): the linked list of connected sockets (closed flags),
the `socketsCount` counter, the `Connections`/`MaxConnections` metrics, the
teardown flags of `Stop` (listener closed, ticker stopped, forking strategy
stopped), whether an error has been delivered to the caller blocked in
`Start`, and whether a background-job panic has been logged. -/
structure ServerState where
  sockets : List Bool
  socketsCount : Nat
  connectionsMetric : Nat
  maxConnectionsMetric : Nat
  listenerClosed : Bool
  tickerStopped : Bool
  strategyStopped : Bool
  startErrorSignalled : Bool
  panicLogged : Bool
deriving DecidableEq, Repr

/-- `Server.updateMetrics` (the parts visible in this state): publishes the
current socket count and tracks its maximum. -/
def serverUpdateMetrics (s : ServerState) : ServerState :=
  { s with
    connectionsMetric := s.socketsCount
    maxConnectionsMetric := max s.maxConnectionsMetric s.socketsCount }

/-- `Server.cleanupConnectedSockets`: the sweep of `tinytcp/server.go`,
identical in structure to `socketsList.Cleanup`: unlinks every closed
socket and decrements the counter per removal. -/
def serverCleanupSockets (s : ServerState) : ServerState :=
  { s with
    sockets := s.sockets.filter (fun closed => !closed)
    socketsCount := s.socketsCount - (s.sockets.filter (fun closed => closed)).length }

/-- What one tick of the background job does when it completes:
`updateMetrics` then `cleanupConnectedSockets`; `panics` models a tick
whose body panics. -/
inductive TickOutcome where
  | completes : TickOutcome
  | panics : TickOutcome
deriving DecidableEq, Repr

/-- `Server.startBackgroundJob` from `tinytcp/server.go`, run over a finite
prefix of tick outcomes: each completed tick runs `updateMetrics` and
`cleanupConnectedSockets`; at the first panicking tick the deferred
`recover` logs the panic — and does nothing else: the goroutine exits
without touching the listener, the ticker, the strategy, the registry, or
the caller blocked in `Start`. -/
def startBackgroundJob (s : ServerState) : List TickOutcome → ServerState
  | [] => s
  | .completes :: rest =>
      startBackgroundJob (serverCleanupSockets (serverUpdateMetrics s)) rest
  | .panics :: _ => { s with panicLogged := true }

/-- `Server.Stop` from `tinytcp/server.go`: closes the listener, stops the
ticker, closes every live socket from a snapshot, and invokes the forking
strategy's `OnStop`. -/
def serverStop (s : ServerState) : ServerState :=
  { s with
    listenerClosed := true
    tickerStopped := true
    sockets := s.sockets.map (fun _ => true)
    strategyStopped := true }

/-- C5 (counterexample): on a concrete running server with one live socket,
a panicking background-job tick is recovered and logged, but nothing is
escalated: no error reaches the `Start` caller, and none of the teardown
that `Stop` performs (listener close, ticker stop, socket close) happens —
the state differs from the `Stop` teardown. -/
theorem backgroundJob_panic_not_escalated :
    (startBackgroundJob ⟨[false], 1, 0, 0, false, false, false, false, false⟩
        [.panics]).panicLogged = true ∧
      (startBackgroundJob ⟨[false], 1, 0, 0, false, false, false, false, false⟩
        [.panics]).startErrorSignalled = false ∧
      (startBackgroundJob ⟨[false], 1, 0, 0, false, false, false, false, false⟩
        [.panics]).listenerClosed = false ∧
      (startBackgroundJob ⟨[false], 1, 0, 0, false, false, false, false, false⟩
          [.panics]) ≠
        serverStop (startBackgroundJob ⟨[false], 1, 0, 0, false, false, false, false, false⟩
          [.panics]) := by
  decide

/-- C5 (amended): a panic in the background ticker job is recovered and
logged, and the job goroutine exits; it is not escalated: whatever the
server state and however many ticks complete before the panicking one, the
`Start` caller is never signalled with an error, and the listener, the
ticker and the forking strategy are left exactly as they were — none of the
`Stop` teardown is performed. -/
theorem backgroundJob_panic_recovered_only (s : ServerState) (ticks : List TickOutcome)
    (hpanic : TickOutcome.panics ∈ ticks) :
    (startBackgroundJob s ticks).panicLogged = true ∧
      (startBackgroundJob s ticks).startErrorSignalled = s.startErrorSignalled ∧
      (startBackgroundJob s ticks).listenerClosed = s.listenerClosed ∧
      (startBackgroundJob s ticks).tickerStopped = s.tickerStopped ∧
      (startBackgroundJob s ticks).strategyStopped = s.strategyStopped := by
  induction ticks generalizing s with
  | nil => simp at hpanic
  | cons t rest ih =>
    cases t with
    | completes =>
      have hm : TickOutcome.panics ∈ rest := by
        rcases List.mem_cons.mp hpanic with hc | hm
        · exact absurd hc (by simp)
        · exact hm
      have := ih (serverCleanupSockets (serverUpdateMetrics s)) hm
      simpa [startBackgroundJob, serverCleanupSockets, serverUpdateMetrics] using this
    | panics => simp [startBackgroundJob]

/-- Witness for the amended C5: a server that completes one tick and then
panics on the second logs the panic and leaves the start signal and all
teardown flags untouched. -/
theorem backgroundJob_panic_recovered_only_witness :
    (startBackgroundJob ⟨[true, false], 2, 0, 0, false, false, false, false, false⟩
        [.completes, .panics]).panicLogged = true ∧
      (startBackgroundJob ⟨[true, false], 2, 0, 0, false, false, false, false, false⟩
        [.completes, .panics]).startErrorSignalled = false ∧
      (startBackgroundJob ⟨[true, false], 2, 0, 0, false, false, false, false, false⟩
        [.completes, .panics]).listenerClosed = false ∧
      (startBackgroundJob ⟨[true, false], 2, 0, 0, false, false, false, false, false⟩
        [.completes, .panics]).tickerStopped = false ∧
      (startBackgroundJob ⟨[true, false], 2, 0, 0, false, false, false, false, false⟩
        [.completes, .panics]).strategyStopped = false :=
  backgroundJob_panic_recovered_only
    ⟨[true, false], 2, 0, 0, false, false, false, false, false⟩
    [.completes, .panics] (by decide)

/-- Outcome classification of a single `socket.Write` error inside
`bulkBroadcasterWorker.onMessage`: `os.ErrDeadlineExceeded` against
anything else. -/
inductive WriteErrKind where
  | deadlineExceeded : WriteErrKind
  | otherError : WriteErrKind
deriving DecidableEq, Repr

/-- The behaviour one target socket exhibits during one `onMessage` pass:
whether `SetWriteDeadline` returns an error, how many bytes the `Write`
reported written, the `Write` error (if any), and what `IsClosed()`
returns when the worker checks it right after the write.  These are
independent observations: targets are closed concurrently with the
broadcast. -/
structure TargetBehavior where
  setDeadlineFails : Bool
  bytesWritten : Nat
  writeErr : Option WriteErrKind
  closedAfterWrite : Bool
deriving DecidableEq, Repr

/-- A `broadcastMessage`: payload bytes plus the target list. -/
structure BroadcastMsg where
  data : List Nat
  targets : List TargetBehavior
deriving DecidableEq, Repr

/-- `bulkBroadcasterWorker.onMessage` from the broadcaster file, restricted
to its observable effect on the worker's own retry queue: for each target
in order, a failed `SetWriteDeadline` skips the target; then the write runs;
a target whose `IsClosed()` reads true is skipped; then a deadline-exceeded
write error enqueues `(message.data[bytesWritten:], message.targets[i:i+1])`
onto the retry queue, and any other write error only logs.  Returns the
retry-queue entries produced by this call, in order. -/
def onMessageRetries (data : List Nat) : List TargetBehavior → List BroadcastMsg
  | [] => []
  | t :: rest =>
    if t.setDeadlineFails then onMessageRetries data rest
    else if t.closedAfterWrite then onMessageRetries data rest
    else
      match t.writeErr with
      | some .deadlineExceeded =>
          ⟨data.drop t.bytesWritten, [t]⟩ :: onMessageRetries data rest
      | some .otherError => onMessageRetries data rest
      | none => onMessageRetries data rest

/-- C9 (counterexample): a target whose write fails with deadline-exceeded
but which is observed closed right after the write is skipped — nothing is
re-enqueued, although the claim requires the remaining suffix to be
re-enqueued for every deadline-exceeded write failure. -/
theorem onMessage_closed_target_dropped :
    (⟨false, 1, some .deadlineExceeded, true⟩ : TargetBehavior).writeErr
        = some .deadlineExceeded ∧
      onMessageRetries [1, 2, 3] [⟨false, 1, some .deadlineExceeded, true⟩] = [] := by
  decide

/-- C9 (amended): `onMessage` iterates the targets in order and its retry
queue receives exactly one entry per target whose `SetWriteDeadline`
succeeded, which was not observed closed after the write, and whose write
failed with deadline-exceeded: the entry carries the unwritten suffix of
the data and that single target.  Targets failing with any other write
error — and targets observed closed, whatever their write outcome —
contribute nothing. -/
theorem onMessage_retries_characterization (data : List Nat)
    (targets : List TargetBehavior) :
    onMessageRetries data targets =
      targets.filterMap (fun t =>
        if t.setDeadlineFails = false ∧ t.closedAfterWrite = false ∧
            t.writeErr = some .deadlineExceeded then
          some ⟨data.drop t.bytesWritten, [t]⟩
        else none) := by
  induction targets with
  | nil => rfl
  | cons t rest ih =>
    unfold onMessageRetries
    by_cases h1 : t.setDeadlineFails
    · simp [h1, List.filterMap_cons, ih]
    · by_cases h2 : t.closedAfterWrite
      · simp [h1, h2, List.filterMap_cons, ih]
      · rcases hw : t.writeErr with _ | k
        · simp [h1, h2, hw, List.filterMap_cons, ih]
        · cases k
          · simp [h1, h2, hw, List.filterMap_cons, ih]
          · simp [h1, h2, hw, List.filterMap_cons, ih]

/-- A `BulkBroadcaster`: the per-call segment size (`poolSize`) and the
number of started workers (the length of the `workers` slice is all
`Broadcast` inspects; messages go to workers round-robin by index). -/
structure BulkBroadcaster where
  poolSize : Nat
  workers : Nat
deriving DecidableEq, Repr

/-- `StartBulkBroadcaster(workersCount, poolSize, writeQuantum)`: returns
`nil` (here `none`) when `workersCount < 1` or `poolSize < 1`, otherwise a
broadcaster with `workersCount` started workers. -/
def StartBulkBroadcaster (workersCount poolSize : Int) : Option BulkBroadcaster :=
  if workersCount < 1 then none
  else if poolSize < 1 then none
  else some ⟨poolSize.toNat, workersCount.toNat⟩

/-- The `left`/`right` walk of `BulkBroadcaster.Broadcast`: cuts `targets`
into contiguous segments of `poolSize` elements (the last one shorter).
For `poolSize ≥ 1` this is exactly the Go loop
`for left < targetsNumber { right = min right targetsNumber;
segment = targets[left:right]; left, right += right - left }`; the Go loop
does not terminate for `poolSize ≤ 0` and non-empty targets
(`StartBulkBroadcaster` guarantees `poolSize ≥ 1`). -/
def segmentTargets (poolSize : Nat) : List TargetBehavior → List (List TargetBehavior)
  | [] => []
  | t :: rest =>
    (t :: rest.take (poolSize - 1)) :: segmentTargets poolSize (rest.drop (poolSize - 1))
termination_by targets => targets.length
decreasing_by simp only [List.length_cons, List.length_drop]; omega

/-- `BulkBroadcaster.Broadcast(data, targets)` from the broadcaster file:
returns the `"no workers in pool"` error (modelled as `Except.error ()`)
exactly when the workers slice is empty; otherwise sends one
`broadcastMessage` per segment to worker `segmentIndex % workersCount`
(round-robin, `send` blocks but never fails) and returns `nil`.  Write
failures, timeouts and closed targets are dealt with inside the workers and
never influence this result. -/
def Broadcast (b : BulkBroadcaster) (data : List Nat)
    (targets : List TargetBehavior) : Except Unit (List (Nat × BroadcastMsg)) :=
  if b.workers = 0 then .error ()
  else
    .ok ((segmentTargets b.poolSize targets).enum.map
      (fun p => (p.1 % b.workers, ⟨data, p.2⟩)))

/-- C10: `Broadcast` returns an error exactly when the broadcaster's worker
pool is empty; with at least one worker (and the `poolSize ≥ 1` that
`StartBulkBroadcaster` guarantees — the Go loop diverges otherwise) it
returns `nil` for every payload and every target list: per-target write
failures, timeouts and closed targets are never reported to the caller. -/
theorem broadcast_error_iff_no_workers (b : BulkBroadcaster) (data : List Nat)
    (targets : List TargetBehavior) (_hpool : 1 ≤ b.poolSize) :
    ((∃ e, Broadcast b data targets = .error e) ↔ b.workers = 0) ∧
      (b.workers ≠ 0 →
        Broadcast b data targets =
          .ok ((segmentTargets b.poolSize targets).enum.map
            (fun p => (p.1 % b.workers, ⟨data, p.2⟩)))) := by
  constructor
  · constructor
    · rintro ⟨e, he⟩
      by_contra hw
      unfold Broadcast at he
      rw [if_neg hw] at he
      exact absurd he (by simp)
    · intro hw
      exact ⟨(), by unfold Broadcast; rw [if_pos hw]⟩
  · intro hw
    unfold Broadcast
    rw [if_neg hw]

/-- Witness for C10: a broadcaster with one worker broadcasts two targets
without error; one with an empty worker pool returns the error. -/
theorem broadcast_error_iff_no_workers_witness :
    ((∃ e, Broadcast ⟨1, 1⟩ [5] [⟨false, 0, none, false⟩, ⟨false, 0, none, false⟩]
          = .error e) ↔ (1 : Nat) = 0) ∧
      ((1 : Nat) ≠ 0 →
        Broadcast ⟨1, 1⟩ [5] [⟨false, 0, none, false⟩, ⟨false, 0, none, false⟩] =
          .ok ((segmentTargets 1 [⟨false, 0, none, false⟩, ⟨false, 0, none, false⟩]).enum.map
            (fun p => (p.1 % 1, ⟨[5], p.2⟩)))) :=
  broadcast_error_iff_no_workers ⟨1, 1⟩ [5]
    [⟨false, 0, none, false⟩, ⟨false, 0, none, false⟩] (by decide)
